import Mathlib

/-!
Shallow embedding of `src/xml2delimiter.py` (class `XMLProcessor`).

Modelling conventions:
* XML element nodes (lxml `etree.Element`) are the inductive `XNode`: tag,
  ordered attribute list, optional text (the text before the first child;
  `none` models lxml returning `None`), and the list of child elements in
  document order.
* XPath evaluation (`node.xpath(path)`) is modelled for the restricted
  selection subset the template language uses: the context step `.` and
  `/`-separated child-name steps.  Expressions outside this subset are
  rejected by `parseXPath`, modelling `etree.XPathEvalError`.
* Fallible code returns `Except String`; the error string carries the
  diagnostic that `safe_xpath` logs before re-raising.
* `self.BAR` and `self.STRIP_WHITESPACE` are passed explicitly as the `bar`
  and `strip` arguments.  A state-threaded variant (`ProcessorState`,
  `process_nodeSt`) mirrors the method-on-`self` structure for the
  read-only/determinism analysis.
-/

namespace Xml2Delimiter

/-- XML element node as parsed by lxml: tag, attributes in document order,
text before the first child (`none` when absent), and child elements. -/
inductive XNode where
  | mk : String → List (String × String) → Option String → List XNode → XNode

def XNode.tag : XNode → String
  | .mk t _ _ _ => t

def XNode.attrib : XNode → List (String × String)
  | .mk _ a _ _ => a

def XNode.text : XNode → Option String
  | .mk _ _ tx _ => tx

def XNode.children : XNode → List XNode
  | .mk _ _ _ cs => cs

/-- `matches[0].attrib.get(attr, '')`: attribute lookup defaulting to the
empty string. -/
def XNode.attrGet (n : XNode) (a : String) : String :=
  (n.attrib.lookup a).getD ""

/-- Python regex `\w`: identifier characters. -/
def wordChar (c : Char) : Bool := c.isAlphanum || c == '_'

/-- First character of an element-name step of a selection expression. -/
def nameStart (c : Char) : Bool := c.isAlpha || c == '_'

/-- One step of the restricted selection subset: the context node itself
(`.`) or the children with a given local tag name. -/
inductive XStep where
  | self
  | child (name : String)

/-- The double-quote character. -/
def dquote : Char := '\x22'

def parseStep (cs : List Char) : Option XStep :=
  if cs = ['.'] then some XStep.self
  else
    match cs with
    | [] => none
    | c :: rest =>
      if nameStart c && rest.all wordChar then some (XStep.child (String.mk (c :: rest)))
      else none

def splitOnSlash : List Char → List (List Char)
  | [] => [[]]
  | c :: rest =>
    if c = '/' then [] :: splitOnSlash rest
    else
      match splitOnSlash rest with
      | [] => [[c]]
      | seg :: segs => (c :: seg) :: segs

/-- Parse a selection expression of the restricted subset; `none` models
`etree.XPathEvalError` for a malformed expression. -/
def parseXPath (path : String) : Option (List XStep) :=
  (splitOnSlash path.data).mapM parseStep

def evalStep (ctx : List XNode) : XStep → List XNode
  | XStep.self => ctx
  | XStep.child name => ctx.flatMap (fun n => n.children.filter (fun c => c.tag == name))

def evalXPath (steps : List XStep) (n : XNode) : List XNode :=
  steps.foldl evalStep [n]

/-- Diagnostic logged by `safe_xpath` (line 60 of the source):
`XPath error for path '{path}' in node '{node.tag}'`. -/
def xpathDiag (path tag : String) : String :=
  "XPath error for path \x27" ++ path ++ "\x27 in node \x27" ++ tag ++ "\x27"

/-- `safe_xpath` (lines 55-61): evaluate the expression against the node, or
report the diagnostic and propagate the error. -/
def safe_xpath (node : XNode) (path : String) : Except String (List XNode) :=
  match parseXPath path with
  | some steps => Except.ok (evalXPath steps node)
  | none => Except.error (xpathDiag path node.tag)

/-- Lazy-group split of `re.match(r'^(.*?)(=\w+)?$', path)` over the raw
characters: the first position whose suffix is `=` followed by a nonempty
run of identifier characters starts the (optional) attribute group. -/
def splitFieldAux : List Char → List Char × Option (List Char)
  | [] => ([], none)
  | c :: rest =>
    if c = '=' ∧ rest ≠ [] ∧ rest.all wordChar = true then ([], some rest)
    else
      let (p, a) := splitFieldAux rest
      (c :: p, a)

/-- `parse_field_path` (lines 63-66): split a field specifier into the node
path (defaulting to `.` when empty) and the optional attribute name. -/
def parse_field_path (s : String) : String × Option String :=
  let (p, a) := splitFieldAux s.data
  (if p = [] then "." else String.mk p, a.map String.mk)

/-- Whitespace characters removed by Python `str.strip()` (ASCII range). -/
def isSpaceChar (c : Char) : Bool :=
  c == ' ' || c == '\t' || c == '\n' || c == '\r' || c == '\x0b' || c == '\x0c'

/-- Python `str.strip()`: drop leading and trailing whitespace. -/
def pyStrip (s : String) : String :=
  String.mk (((s.data.dropWhile isSpaceChar).reverse.dropWhile isSpaceChar).reverse)

/-- `clean_value` (lines 68-73): `None` becomes the empty string; whitespace
is stripped when the flag is set. -/
def clean_value (strip : Bool) (v : Option String) : String :=
  match v with
  | none => ""
  | some s => if strip then pyStrip s else s

/-- Body of the field loop of `format_line` (lines 78-93): resolve one field
specifier against `node`, producing the raw (pre-cleaning) value. -/
def resolve_field (node : XNode) (field : String) : Except String (Option String) :=
  if field = "" then Except.ok (some "")
  else
    let (xpath, attr) := parse_field_path field
    match safe_xpath node xpath with
    | Except.error e => Except.error e
    | Except.ok [] => Except.ok (some "")
    | Except.ok (m :: _) =>
      match attr with
      | some a => Except.ok (some (m.attrGet a))
      | none => Except.ok m.text

/-- The field loop of `format_line` over the whole specifier list. -/
def resolve_fields (node : XNode) : List String → Except String (List (Option String))
  | [] => Except.ok []
  | f :: rest =>
    match resolve_field node f with
    | Except.error e => Except.error e
    | Except.ok v =>
      match resolve_fields node rest with
      | Except.error e => Except.error e
      | Except.ok vs => Except.ok (v :: vs)

/-- `format_line` (lines 75-98): resolve all fields, clean the values, join
with the delimiter, and suppress the line when every cleaned value is
empty. -/
def format_line (bar : String) (strip : Bool) (code : String) (node : XNode)
    (fields : List String) : Except String String :=
  match resolve_fields node fields with
  | Except.error e => Except.error e
  | Except.ok values =>
    let cleaned := values.map (clean_value strip)
    let line := String.intercalate bar (code :: cleaned) ++ "\n"
    Except.ok (if cleaned.any (fun v => !v.isEmpty) then line else "")

/-- A JSON template value: a field list, a sub-template, or any other JSON
value (string, number, bool, null) — which `process_node` matches with
neither `isinstance(value, list)` nor `isinstance(value, dict)`. -/
inductive TemplateValue where
  | fields (fs : List String)
  | sub (t : List (String × TemplateValue))
  | scalar (s : String)

/-- An ordered JSON mapping (`OrderedDict`) from record codes / selection
keys to template values. -/
abbrev Template := List (String × TemplateValue)

mutual

/-- `process_node` (lines 100-115), single-node branch: iterate the template
entries in declaration order; a list value is a field group formatted by
`format_line`, a dict value selects sub-nodes to recurse into, and any
other value falls through the `isinstance` chain. -/
def process_node (bar : String) (strip : Bool) : Template → XNode → Except String String
  | [], _ => Except.ok ""
  | (code, TemplateValue.fields fs) :: rest, node =>
    match format_line bar strip code node fs with
    | Except.error e => Except.error e
    | Except.ok line =>
      match process_node bar strip rest node with
      | Except.error e => Except.error e
      | Except.ok out => Except.ok (line ++ out)
  | (code, TemplateValue.sub t) :: rest, node =>
    match safe_xpath node code with
    | Except.error e => Except.error e
    | Except.ok subNodes =>
      match process_list bar strip t subNodes with
      | Except.error e => Except.error e
      | Except.ok subOut =>
        match process_node bar strip rest node with
        | Except.error e => Except.error e
        | Except.ok out => Except.ok (subOut ++ out)
  | (_, TemplateValue.scalar _) :: rest, node => process_node bar strip rest node
termination_by t _ => (sizeOf t, 0)

/-- `process_node` (lines 103-106), list branch: process each node of the
list in order and concatenate the results. -/
def process_list (bar : String) (strip : Bool) (t : Template) : List XNode → Except String String
  | [] => Except.ok ""
  | n :: rest =>
    match process_node bar strip t n with
    | Except.error e => Except.error e
    | Except.ok o1 =>
      match process_list bar strip t rest with
      | Except.error e => Except.error e
      | Except.ok o2 => Except.ok (o1 ++ o2)
termination_by ns => (sizeOf t, ns.length + 1)

end

instance {ε α : Type} [DecidableEq ε] [DecidableEq α] : DecidableEq (Except ε α) :=
  fun a b =>
    match a, b with
    | Except.error e1, Except.error e2 =>
      if h : e1 = e2 then isTrue (by rw [h]) else isFalse (by simp [h])
    | Except.ok v1, Except.ok v2 =>
      if h : v1 = v2 then isTrue (by rw [h]) else isFalse (by simp [h])
    | Except.error _, Except.ok _ => isFalse (by simp)
    | Except.ok _, Except.error _ => isFalse (by simp)

/-- Output of one template entry against one node: the body of the
`for code, value in template.items()` loop of `process_node`. -/
def entry_output (bar : String) (strip : Bool) (node : XNode) :
    String × TemplateValue → Except String String
  | (code, TemplateValue.fields fs) => format_line bar strip code node fs
  | (code, TemplateValue.sub t) =>
    match safe_xpath node code with
    | Except.error e => Except.error e
    | Except.ok subNodes => process_list bar strip t subNodes
  | (_, TemplateValue.scalar _) => Except.ok ""

/-- Collect the outputs of `f` over a list in order, propagating the first
error. -/
def map_outputs {α : Type} (f : α → Except String String) :
    List α → Except String (List String)
  | [] => Except.ok []
  | a :: rest =>
    match f a with
    | Except.error e => Except.error e
    | Except.ok s =>
      match map_outputs f rest with
      | Except.error e => Except.error e
      | Except.ok ss => Except.ok (s :: ss)

/-- Concatenation of a list of output fragments, in order. -/
def concat_all : List String → String
  | [] => ""
  | s :: rest => s ++ concat_all rest

/-!
The namespace-cleaning regexes of `node_processor` (lines 117-124):

    node_str = re.sub(r"xmlns.*=\".*?\"", "", node_str)
    node_str = re.sub(r'\s\w+?:(\w+?=".*?)', r" \g<1>", node_str)

They are modelled character-exactly, including Python regex semantics:
for the first pattern, the greedy `.*` (which does not cross a newline)
backtracks to the last `="` on the line that is followed by a closing
quote, and the lazy `.*?` takes the first closing quote after it; for the
second pattern, all lazy quantifiers take their shortest match (the final
`.*?` matches the empty string), so a match is whitespace, a word run, a
colon, a word run, `="`, and the replacement keeps everything after the
colon, preceded by a literal space.  `re.sub` scans left to right and
continues after the end of each match.  The recursions are driven by a
fuel initialised to the list length, which suffices because every match
consumes at least one character.
-/

def firstQuoteAfter (ln : List Char) (start : Nat) : Option Nat :=
  match (ln.drop start).findIdx? (fun c => c == dquote) with
  | some i => some (start + i)
  | none => none

/-- End position (index of the closing quote) of the greedy
`.*=\".*?\"` tail of the first pattern within one line. -/
def findMatchEnd (ln : List Char) : Option Nat :=
  let ks := (List.range ln.length).filter
    (fun k => ln[k]? == some '=' && ln[k+1]? == some dquote
      && (firstQuoteAfter ln (k+2)).isSome)
  match ks.getLast? with
  | some k => firstQuoteAfter ln (k + 2)
  | none => none

/-- Match the first pattern at the head of `cs`; return the suffix after
the match when it succeeds. -/
def matchXmlns (cs : List Char) : Option (List Char) :=
  if cs.take 5 = "xmlns".data then
    match findMatchEnd ((cs.drop 5).takeWhile (fun c => c != '\n')) with
    | some mEnd => some ((cs.drop 5).drop (mEnd + 1))
    | none => none
  else none

def subAFuel : Nat → List Char → List Char
  | 0, cs => cs
  | _ + 1, [] => []
  | fuel + 1, c :: cs =>
    match matchXmlns (c :: cs) with
    | some rest => subAFuel fuel rest
    | none => c :: subAFuel fuel cs

/-- Match the second pattern at the head of `cs`; return the group
(attribute name) and the suffix after the match. -/
def matchNsAttr (cs : List Char) : Option (List Char × List Char) :=
  match cs with
  | [] => none
  | c :: rest0 =>
    if isSpaceChar c then
      let w1 := rest0.takeWhile wordChar
      if w1 = [] then none
      else
        match rest0.drop w1.length with
        | c1 :: rest1 =>
          if c1 = ':' then
            let w2 := rest1.takeWhile wordChar
            if w2 = [] then none
            else
              match rest1.drop w2.length with
              | c2 :: c3 :: rest2 =>
                if c2 = '=' ∧ c3 = dquote then some (w2, rest2) else none
              | _ => none
          else none
        | [] => none
    else none

def subBFuel : Nat → List Char → List Char
  | 0, cs => cs
  | _ + 1, [] => []
  | fuel + 1, c :: cs =>
    match matchNsAttr (c :: cs) with
    | some (w2, rest) => ' ' :: (w2 ++ '=' :: dquote :: subBFuel fuel rest)
    | none => c :: subBFuel fuel cs

/-- The two `re.sub` normalisations of `node_processor` (lines 121-122), in
source order. -/
def clean_node_str (s : String) : String :=
  let a := subAFuel s.data.length s.data
  String.mk (subBFuel a.length a)

/-- Tag of the first element of a serialized XML fragment: the characters
after `<` up to a space, `>` or `/`. -/
def serialized_tag (s : String) : String :=
  String.mk ((s.data.drop 1).takeWhile (fun c => !(c == ' ' || c == '>' || c == '/')))

/-- The fields of `XMLProcessor.__init__` that the template interpreter can
reach through `self`: the delimiter, the whitespace flag, and the output
buffer. -/
structure ProcessorState where
  BAR : String
  STRIP_WHITESPACE : Bool
  buffer : List String
deriving DecidableEq

/-- `clean_value` as a method on `self`: reads `STRIP_WHITESPACE`, returns
control with the instance it finished with. -/
def clean_valueSt (st : ProcessorState) (v : Option String) : String × ProcessorState :=
  match v with
  | none => ("", st)
  | some s => (if st.STRIP_WHITESPACE then pyStrip s else s, st)

/-- One field-loop iteration of `format_line` as a method on `self`. -/
def resolve_fieldSt (st : ProcessorState) (node : XNode) (field : String) :
    Except String (Option String × ProcessorState) :=
  if field = "" then Except.ok (some "", st)
  else
    let (xpath, attr) := parse_field_path field
    match safe_xpath node xpath with
    | Except.error e => Except.error e
    | Except.ok [] => Except.ok (some "", st)
    | Except.ok (m :: _) =>
      match attr with
      | some a => Except.ok (some (m.attrGet a), st)
      | none => Except.ok (m.text, st)

def resolve_fieldsSt (st : ProcessorState) (node : XNode) :
    List String → Except String (List (Option String) × ProcessorState)
  | [] => Except.ok ([], st)
  | f :: rest =>
    match resolve_fieldSt st node f with
    | Except.error e => Except.error e
    | Except.ok (v, st1) =>
      match resolve_fieldsSt st1 node rest with
      | Except.error e => Except.error e
      | Except.ok (vs, st2) => Except.ok (v :: vs, st2)

/-- The `map(self.clean_value, values)` step with the instance threaded. -/
def clean_listSt (st : ProcessorState) : List (Option String) → List String × ProcessorState
  | [] => ([], st)
  | v :: vs =>
    let (c, st1) := clean_valueSt st v
    let (cs, st2) := clean_listSt st1 vs
    (c :: cs, st2)

/-- `format_line` as a method on `self`: reads `BAR` and
`STRIP_WHITESPACE` through the threaded instance. -/
def format_lineSt (st : ProcessorState) (code : String) (node : XNode)
    (fields : List String) : Except String (String × ProcessorState) :=
  match resolve_fieldsSt st node fields with
  | Except.error e => Except.error e
  | Except.ok (values, st1) =>
    let (cleaned, st2) := clean_listSt st1 values
    let line := String.intercalate st2.BAR (code :: cleaned) ++ "\n"
    Except.ok ((if cleaned.any (fun v => !v.isEmpty) then line else ""), st2)

mutual

/-- `process_node` (single-node branch) as a method on `self`. -/
def process_nodeSt (st : ProcessorState) : Template → XNode → Except String (String × ProcessorState)
  | [], _ => Except.ok ("", st)
  | (code, TemplateValue.fields fs) :: rest, node =>
    match format_lineSt st code node fs with
    | Except.error e => Except.error e
    | Except.ok (line, st1) =>
      match process_nodeSt st1 rest node with
      | Except.error e => Except.error e
      | Except.ok (out, st2) => Except.ok (line ++ out, st2)
  | (code, TemplateValue.sub t) :: rest, node =>
    match safe_xpath node code with
    | Except.error e => Except.error e
    | Except.ok subNodes =>
      match process_listSt st t subNodes with
      | Except.error e => Except.error e
      | Except.ok (subOut, st1) =>
        match process_nodeSt st1 rest node with
        | Except.error e => Except.error e
        | Except.ok (out, st2) => Except.ok (subOut ++ out, st2)
  | (_, TemplateValue.scalar _) :: rest, node => process_nodeSt st rest node
termination_by t _ => (sizeOf t, 0)

/-- `process_node` (list branch) as a method on `self`. -/
def process_listSt (st : ProcessorState) (t : Template) : List XNode → Except String (String × ProcessorState)
  | [] => Except.ok ("", st)
  | n :: rest =>
    match process_nodeSt st t n with
    | Except.error e => Except.error e
    | Except.ok (o1, st1) =>
      match process_listSt st1 t rest with
      | Except.error e => Except.error e
      | Except.ok (o2, st2) => Except.ok (o1 ++ o2, st2)
termination_by ns => (sizeOf t, ns.length + 1)

end

/-!
Concrete values used by the closed theorems below: the lxml parse of the
fragment `<root><item name="A">10</item><item name="B"></item></root>`
(lxml gives `None` for absent text) and the template
`{"root": {"item": [".=name", "."]}}` as seen by `process_node` after the
streaming layer has matched a `root` element.
-/

def itemA : XNode := XNode.mk "item" [("name", "A")] (some "10") []

def itemB : XNode := XNode.mk "item" [("name", "B")] none []

def c2root : XNode := XNode.mk "root" [] none [itemA, itemB]

def c2template : Template := [("item", TemplateValue.fields [".=name", "."])]

/-! Unfolding lemmas for the well-founded mutual recursions. -/

theorem process_node_nil (bar : String) (strip : Bool) (n : XNode) :
    process_node bar strip [] n = Except.ok "" := by
  simp [process_node]

theorem process_node_cons_fields (bar : String) (strip : Bool) (code : String)
    (fs : List String) (rest : Template) (n : XNode) :
    process_node bar strip ((code, TemplateValue.fields fs) :: rest) n =
      match format_line bar strip code n fs with
      | Except.error e => Except.error e
      | Except.ok ln =>
        match process_node bar strip rest n with
        | Except.error e => Except.error e
        | Except.ok out => Except.ok (ln ++ out) := by
  simp [process_node]

theorem process_node_cons_sub (bar : String) (strip : Bool) (code : String)
    (t : Template) (rest : Template) (n : XNode) :
    process_node bar strip ((code, TemplateValue.sub t) :: rest) n =
      match safe_xpath n code with
      | Except.error e => Except.error e
      | Except.ok subNodes =>
        match process_list bar strip t subNodes with
        | Except.error e => Except.error e
        | Except.ok subOut =>
          match process_node bar strip rest n with
          | Except.error e => Except.error e
          | Except.ok out => Except.ok (subOut ++ out) := by
  simp [process_node]

theorem process_node_cons_scalar (bar : String) (strip : Bool) (code : String)
    (s : String) (rest : Template) (n : XNode) :
    process_node bar strip ((code, TemplateValue.scalar s) :: rest) n =
      process_node bar strip rest n := by
  simp [process_node]

theorem process_list_nil (bar : String) (strip : Bool) (t : Template) :
    process_list bar strip t [] = Except.ok "" := by
  simp [process_list]

theorem process_list_cons (bar : String) (strip : Bool) (t : Template)
    (n : XNode) (rest : List XNode) :
    process_list bar strip t (n :: rest) =
      match process_node bar strip t n with
      | Except.error e => Except.error e
      | Except.ok o1 =>
        match process_list bar strip t rest with
        | Except.error e => Except.error e
        | Except.ok o2 => Except.ok (o1 ++ o2) := by
  simp [process_list]

theorem process_nodeSt_nil (st : ProcessorState) (n : XNode) :
    process_nodeSt st [] n = Except.ok ("", st) := by
  simp [process_nodeSt]

theorem process_nodeSt_cons_fields (st : ProcessorState) (code : String)
    (fs : List String) (rest : Template) (n : XNode) :
    process_nodeSt st ((code, TemplateValue.fields fs) :: rest) n =
      match format_lineSt st code n fs with
      | Except.error e => Except.error e
      | Except.ok (ln, st1) =>
        match process_nodeSt st1 rest n with
        | Except.error e => Except.error e
        | Except.ok (out, st2) => Except.ok (ln ++ out, st2) := by
  simp [process_nodeSt]

theorem process_nodeSt_cons_sub (st : ProcessorState) (code : String)
    (t : Template) (rest : Template) (n : XNode) :
    process_nodeSt st ((code, TemplateValue.sub t) :: rest) n =
      match safe_xpath n code with
      | Except.error e => Except.error e
      | Except.ok subNodes =>
        match process_listSt st t subNodes with
        | Except.error e => Except.error e
        | Except.ok (subOut, st1) =>
          match process_nodeSt st1 rest n with
          | Except.error e => Except.error e
          | Except.ok (out, st2) => Except.ok (subOut ++ out, st2) := by
  simp [process_nodeSt]

theorem process_nodeSt_cons_scalar (st : ProcessorState) (code : String)
    (s : String) (rest : Template) (n : XNode) :
    process_nodeSt st ((code, TemplateValue.scalar s) :: rest) n =
      process_nodeSt st rest n := by
  simp [process_nodeSt]

theorem process_listSt_nil (st : ProcessorState) (t : Template) :
    process_listSt st t [] = Except.ok ("", st) := by
  simp [process_listSt]

theorem process_listSt_cons (st : ProcessorState) (t : Template)
    (n : XNode) (rest : List XNode) :
    process_listSt st t (n :: rest) =
      match process_nodeSt st t n with
      | Except.error e => Except.error e
      | Except.ok (o1, st1) =>
        match process_listSt st1 t rest with
        | Except.error e => Except.error e
        | Except.ok (o2, st2) => Except.ok (o1 ++ o2, st2) := by
  simp [process_listSt]

/-! The state-threaded methods neither write the instance nor depend on the
buffer: each equals its pure counterpart with the incoming state returned. -/

theorem clean_valueSt_eq (st : ProcessorState) (v : Option String) :
    clean_valueSt st v = (clean_value st.STRIP_WHITESPACE v, st) := by
  cases v <;> rfl

theorem resolve_fieldSt_eq (st : ProcessorState) (node : XNode) (f : String) :
    resolve_fieldSt st node f = (resolve_field node f).map (fun v => (v, st)) := by
  unfold resolve_fieldSt resolve_field
  by_cases hf : f = ""
  · simp [hf, Except.map]
  · simp only [hf, if_false]
    cases h : safe_xpath node (parse_field_path f).1 with
    | error e => simp [Except.map]
    | ok ms =>
      cases ms with
      | nil => simp [Except.map]
      | cons m mrest =>
        cases ha : (parse_field_path f).2 <;> simp [Except.map]

theorem resolve_fieldsSt_eq (st : ProcessorState) (node : XNode) (fields : List String) :
    resolve_fieldsSt st node fields
      = (resolve_fields node fields).map (fun vs => (vs, st)) := by
  induction fields with
  | nil => rfl
  | cons f rest ih =>
    unfold resolve_fieldsSt resolve_fields
    rw [resolve_fieldSt_eq]
    cases h : resolve_field node f with
    | error e => simp [Except.map]
    | ok v =>
      simp only [Except.map, ih]
      cases h2 : resolve_fields node rest with
      | error e => simp [Except.map]
      | ok vs => simp [Except.map]

theorem clean_listSt_eq (st : ProcessorState) (vs : List (Option String)) :
    clean_listSt st vs = (vs.map (clean_value st.STRIP_WHITESPACE), st) := by
  induction vs with
  | nil => rfl
  | cons v rest ih =>
    unfold clean_listSt
    rw [clean_valueSt_eq]
    simp only [ih]
    rfl

theorem format_lineSt_eq (st : ProcessorState) (code : String) (node : XNode)
    (fields : List String) :
    format_lineSt st code node fields
      = (format_line st.BAR st.STRIP_WHITESPACE code node fields).map (fun o => (o, st)) := by
  unfold format_lineSt format_line
  rw [resolve_fieldsSt_eq]
  cases h : resolve_fields node fields with
  | error e => simp [Except.map]
  | ok values =>
    simp only [Except.map]
    rw [clean_listSt_eq]

theorem processSt_pure :
    ∀ (N : Nat) (t : Template), sizeOf t ≤ N →
      (∀ (st : ProcessorState) (n : XNode),
        process_nodeSt st t n
          = (process_node st.BAR st.STRIP_WHITESPACE t n).map (fun o => (o, st))) ∧
      (∀ (st : ProcessorState) (ns : List XNode),
        process_listSt st t ns
          = (process_list st.BAR st.STRIP_WHITESPACE t ns).map (fun o => (o, st))) := by
  intro N
  induction N with
  | zero =>
    intro t ht
    exfalso
    cases t <;> simp at ht
  | succ N ih =>
    intro t ht
    have hA : ∀ (st : ProcessorState) (n : XNode),
        process_nodeSt st t n
          = (process_node st.BAR st.STRIP_WHITESPACE t n).map (fun o => (o, st)) := by
      intro st n
      cases t with
      | nil => simp [process_nodeSt_nil, process_node_nil, Except.map]
      | cons e rest =>
        obtain ⟨code, v⟩ := e
        have hrest : sizeOf rest ≤ N := by
          simp at ht
          omega
        cases v with
        | fields fs =>
          rw [process_nodeSt_cons_fields, process_node_cons_fields, format_lineSt_eq]
          cases h1 : format_line st.BAR st.STRIP_WHITESPACE code n fs with
          | error e => simp [Except.map]
          | ok ln =>
            simp only [Except.map]
            rw [(ih rest hrest).1 st n]
            cases h2 : process_node st.BAR st.STRIP_WHITESPACE rest n with
            | error e => simp [Except.map]
            | ok out => simp [Except.map]
        | sub t2 =>
          have ht2 : sizeOf t2 ≤ N := by
            simp at ht
            omega
          rw [process_nodeSt_cons_sub, process_node_cons_sub]
          cases h1 : safe_xpath n code with
          | error e => simp [Except.map]
          | ok subNodes =>
            simp only [Except.map]
            rw [(ih t2 ht2).2 st subNodes]
            cases h2 : process_list st.BAR st.STRIP_WHITESPACE t2 subNodes with
            | error e => simp [Except.map]
            | ok subOut =>
              simp only [Except.map]
              rw [(ih rest hrest).1 st n]
              cases h3 : process_node st.BAR st.STRIP_WHITESPACE rest n with
              | error e => simp [Except.map]
              | ok out => simp [Except.map]
        | scalar s =>
          have hrest2 : sizeOf rest ≤ N := by
            simp at ht
            omega
          rw [process_nodeSt_cons_scalar, process_node_cons_scalar]
          exact (ih rest hrest2).1 st n
    have hB : ∀ (st : ProcessorState) (ns : List XNode),
        process_listSt st t ns
          = (process_list st.BAR st.STRIP_WHITESPACE t ns).map (fun o => (o, st)) := by
      intro st ns
      induction ns with
      | nil => simp [process_listSt_nil, process_list_nil, Except.map]
      | cons n rest ihns =>
        rw [process_listSt_cons, process_list_cons, hA st n]
        cases h1 : process_node st.BAR st.STRIP_WHITESPACE t n with
        | error e => simp [Except.map]
        | ok o1 =>
          simp only [Except.map]
          rw [ihns]
          cases h2 : process_list st.BAR st.STRIP_WHITESPACE t rest with
          | error e => simp [Except.map]
          | ok o2 => simp [Except.map]
    exact ⟨hA, hB⟩

/-! Small string helpers. -/

theorem str_empty_append (s : String) : "" ++ s = s := by
  cases s
  rfl

theorem str_append_newline_ne_empty (s : String) : s ++ "\n" ≠ "" := by
  intro h
  have h2 : (s ++ "\n").data = ("" : String).data := by rw [h]
  rw [String.data_append] at h2
  simp at h2

/-- Shared concrete evaluation: the C2 fragment under the C2 template
produces no output, for every delimiter and stripping setting. -/
theorem format_line_c2_eval (bar : String) (strip : Bool) :
    format_line bar strip "item" c2root [".=name", "."] = Except.ok "" := by
  cases strip <;> rfl

theorem process_node_c2_eval (bar : String) (strip : Bool) :
    process_node bar strip c2template c2root = Except.ok "" := by
  show process_node bar strip [("item", TemplateValue.fields [".=name", "."])] c2root
    = Except.ok ""
  rw [process_node_cons_fields, format_line_c2_eval, process_node_nil]
  rfl

/-- C1: for every record code, context node and field-specifier list, when
`format_line` returns without an XPath error, it returns the
delimiter-joined line — code first, then the cleaned resolved values, then
a newline — exactly when at least one resolved value is non-empty after
cleaning; when every cleaned value is empty it returns nothing (the empty
string): no blank line and no bare code-plus-delimiters line, which is
impossible anyway since the joined line always ends in a newline. -/
theorem format_line_emits_iff (bar : String) (strip : Bool) (code : String)
    (node : XNode) (fields : List String) (values : List (Option String)) (r : String)
    (hv : resolve_fields node fields = Except.ok values)
    (h : format_line bar strip code node fields = Except.ok r) :
    ((values.map (clean_value strip)).any (fun v => !v.isEmpty) = true →
      r = String.intercalate bar (code :: values.map (clean_value strip)) ++ "\n") ∧
    ((values.map (clean_value strip)).any (fun v => !v.isEmpty) = false →
      r = "") ∧
    String.intercalate bar (code :: values.map (clean_value strip)) ++ "\n" ≠ "" := by
  unfold format_line at h
  rw [hv] at h
  simp only at h
  refine ⟨?_, ?_, str_append_newline_ne_empty _⟩
  · intro hany
    rw [hany] at h
    simp at h
    exact h.symm
  · intro hnone
    rw [hnone] at h
    simp at h
    exact h.symm

theorem format_line_emits_iff_witness :
    ((([some "10"] : List (Option String)).map (clean_value true)).any
        (fun v => !v.isEmpty) = true →
      "c|10\n" = String.intercalate "|"
        ("c" :: ([some "10"] : List (Option String)).map (clean_value true)) ++ "\n") ∧
    ((([some "10"] : List (Option String)).map (clean_value true)).any
        (fun v => !v.isEmpty) = false →
      "c|10\n" = "") ∧
    String.intercalate "|"
        ("c" :: ([some "10"] : List (Option String)).map (clean_value true)) ++ "\n" ≠ "" :=
  format_line_emits_iff "|" true "c" itemA ["."] [some "10"] "c|10\n" rfl rfl

/-- C2 counterexample: interpreting the fragment
`<root><item name="A">10</item><item name="B"></item></root>` against the
template `{"root": {"item": [".=name", "."]}}` with delimiter `|` does not
produce the two lines `item|A|10\n` and `item|B|\n` the claim states. -/
theorem c2_round_trip_not_two_lines :
    process_node "|" true c2template c2root ≠ Except.ok "item|A|10\nitem|B|\n" := by
  rw [process_node_c2_eval]
  decide

/-- C2 amended: interpreting that fragment against that template produces no
output at all.  The key `item` is a record code whose field list is
resolved against the matched `root` element itself, not against the `item`
children; `root` has no `name` attribute and no text, so every cleaned
value is empty and the single candidate line is suppressed. -/
theorem c2_round_trip_empty_output :
    process_node "|" true c2template c2root = Except.ok "" ∧
    format_line "|" true "item" c2root [".=name", "."] = Except.ok "" :=
  ⟨process_node_c2_eval "|" true, format_line_c2_eval "|" true⟩

/-- C9 counterexample: a template entry whose value is neither a list nor a
mapping (here the JSON string value `"oops"`) is not a fatal configuration
error: `process_node` returns successfully with empty output, silently
skipping the entry. -/
theorem scalar_template_value_not_fatal :
    process_node "|" true [("code", TemplateValue.scalar "oops")] c2root
      = Except.ok "" := by
  rw [process_node_cons_scalar, process_node_nil]

/-- C9 amended: a template entry whose value is neither a list nor a mapping
is silently skipped by `process_node` — it contributes no output and raises
no error, because the `isinstance(value, list)` / `isinstance(value, dict)`
chain has no else branch. -/
theorem scalar_template_value_skipped (bar : String) (strip : Bool)
    (code s : String) (rest : Template) (node : XNode) :
    process_node bar strip ((code, TemplateValue.scalar s) :: rest) node
      = process_node bar strip rest node :=
  process_node_cons_scalar bar strip code s rest node

/-- C3: missing data never raises and never aborts: a field path that
matches no node resolves to the empty string; a matched node lacking the
requested attribute resolves to the empty string; absent text resolves to
`None` and cleans to the empty string; and a sub-template key matching zero
child nodes contributes nothing and no error. -/
theorem missing_data_not_errors :
    (∀ (node : XNode) (f p : String) (a : Option String),
      parse_field_path f = (p, a) → safe_xpath node p = Except.ok [] → f ≠ "" →
      resolve_field node f = Except.ok (some "")) ∧
    (∀ (node m : XNode) (mrest : List XNode) (f p a : String),
      parse_field_path f = (p, some a) → safe_xpath node p = Except.ok (m :: mrest) →
      f ≠ "" → m.attrib.lookup a = none →
      resolve_field node f = Except.ok (some "")) ∧
    (∀ (node m : XNode) (mrest : List XNode) (f p : String),
      parse_field_path f = (p, none) → safe_xpath node p = Except.ok (m :: mrest) →
      f ≠ "" → m.text = none →
      resolve_field node f = Except.ok none ∧ ∀ strip, clean_value strip none = "") ∧
    (∀ (bar : String) (strip : Bool) (node : XNode) (code : String) (t rest : Template),
      safe_xpath node code = Except.ok [] →
      process_node bar strip ((code, TemplateValue.sub t) :: rest) node
        = process_node bar strip rest node) := by
  refine ⟨?_, ?_, ?_, ?_⟩
  · intro node f p a hpa hsx hf
    simp [resolve_field, hf, hpa, hsx]
  · intro node m mrest f p a hpa hsx hf hlook
    simp [resolve_field, hf, hpa, hsx, XNode.attrGet, hlook]
  · intro node m mrest f p hpa hsx hf hm
    refine ⟨by simp [resolve_field, hf, hpa, hsx, hm], fun strip => rfl⟩
  · intro bar strip node code t rest hsx
    rw [process_node_cons_sub, hsx]
    cases h : process_node bar strip rest node with
    | error e => simp [process_list_nil]
    | ok out => simp [process_list_nil, str_empty_append]

theorem missing_data_not_errors_witness :
    resolve_field itemA "zzz" = Except.ok (some "") ∧
    resolve_field c2root "item=missing" = Except.ok (some "") ∧
    resolve_field (XNode.mk "r" [] none [itemB]) "item" = Except.ok none ∧
    process_node "|" true [("zzz", TemplateValue.sub [])] c2root
      = process_node "|" true [] c2root :=
  ⟨missing_data_not_errors.1 itemA "zzz" "zzz" none rfl rfl (by decide),
   missing_data_not_errors.2.1 c2root itemA [itemB] "item=missing" "item" "missing"
     rfl rfl (by decide) rfl,
   (missing_data_not_errors.2.2.1 (XNode.mk "r" [] none [itemB]) itemB [] "item" "item"
     rfl rfl (by decide) rfl).1,
   missing_data_not_errors.2.2.2 "|" true c2root "zzz" [] [] rfl⟩

/-- C5: for every malformed selection expression — a field path or a
sub-template key that the restricted expression grammar rejects —
evaluation against a node is a fatal error: `safe_xpath` produces the
diagnostic naming both the offending expression and the containing node's
tag, and both `process_node` (for a sub-template key) and `format_line`
(for a field path) propagate it instead of swallowing it. -/
theorem malformed_selection_fatal :
    ∀ (node : XNode) (p : String), parseXPath p = none →
      safe_xpath node p = Except.error (xpathDiag p node.tag) ∧
      p.data <:+: (xpathDiag p node.tag).data ∧
      node.tag.data <:+: (xpathDiag p node.tag).data ∧
      (∀ (bar : String) (strip : Bool) (t rest : Template),
        process_node bar strip ((p, TemplateValue.sub t) :: rest) node
          = Except.error (xpathDiag p node.tag)) ∧
      (∀ (bar : String) (strip : Bool) (code f : String) (a : Option String)
          (fields : List String),
        f ≠ "" → parse_field_path f = (p, a) →
        format_line bar strip code node (f :: fields)
          = Except.error (xpathDiag p node.tag)) := by
  intro node p hp
  have hdiag : safe_xpath node p = Except.error (xpathDiag p node.tag) := by
    unfold safe_xpath
    rw [hp]
  refine ⟨hdiag, ?_, ?_, ?_, ?_⟩
  · refine ⟨"XPath error for path \x27".data,
      ("\x27 in node \x27" ++ node.tag ++ "\x27").data, ?_⟩
    simp [xpathDiag, String.data_append]
  · refine ⟨("XPath error for path \x27" ++ p ++ "\x27 in node \x27").data,
      "\x27".data, ?_⟩
    simp [xpathDiag, String.data_append]
  · intro bar strip t rest
    rw [process_node_cons_sub, hdiag]
  · intro bar strip code f a fields hf hpa
    have hrf : resolve_field node f = Except.error (xpathDiag p node.tag) := by
      simp [resolve_field, hf, hpa, hdiag]
    simp [format_line, resolve_fields, hrf]

theorem malformed_selection_fatal_witness :
    safe_xpath c2root "][" = Except.error (xpathDiag "][" c2root.tag) ∧
    ("][" : String).data <:+: (xpathDiag "][" c2root.tag).data ∧
    c2root.tag.data <:+: (xpathDiag "][" c2root.tag).data ∧
    process_node "|" true [("][", TemplateValue.sub [])] c2root
      = Except.error (xpathDiag "][" c2root.tag) ∧
    format_line "|" true "c" c2root ["]["]
      = Except.error (xpathDiag "][" c2root.tag) := by
  obtain ⟨h1, h2, h3, h4, h5⟩ := malformed_selection_fatal c2root "][" rfl
  exact ⟨h1, h2, h3, h4 "|" true [] [], h5 "|" true "c" "][" none [] (by decide) rfl⟩

/-- C6: for a single node the interpreter emits the per-entry outputs in
the template's key declaration order; for a list of nodes matched by one
key it interprets them in the list's (document) order and concatenates the
results — so document order is preserved only among nodes selected by the
same key, while across different template keys the declaration order
rules. -/
theorem interpretation_order :
    (∀ (bar : String) (strip : Bool) (t : Template) (ns : List XNode),
      process_list bar strip t ns
        = (map_outputs (process_node bar strip t) ns).map concat_all) ∧
    (∀ (bar : String) (strip : Bool) (t : Template) (n : XNode),
      process_node bar strip t n
        = (map_outputs (entry_output bar strip n) t).map concat_all) := by
  constructor
  · intro bar strip t ns
    induction ns with
    | nil =>
      rw [process_list_nil]
      rfl
    | cons n rest ih =>
      rw [process_list_cons, ih]
      cases h1 : process_node bar strip t n with
      | error e => simp [map_outputs, h1, Except.map]
      | ok o1 =>
        cases h2 : map_outputs (process_node bar strip t) rest with
        | error e => simp [map_outputs, h1, h2, Except.map]
        | ok os => simp [map_outputs, h1, h2, Except.map, concat_all]
  · intro bar strip t n
    induction t with
    | nil =>
      rw [process_node_nil]
      rfl
    | cons e rest ih =>
      obtain ⟨code, v⟩ := e
      cases v with
      | fields fs =>
        rw [process_node_cons_fields, ih]
        cases h1 : format_line bar strip code n fs with
        | error e => simp [map_outputs, entry_output, h1, Except.map]
        | ok ln =>
          cases h2 : map_outputs (entry_output bar strip n) rest with
          | error e => simp [map_outputs, entry_output, h1, h2, Except.map]
          | ok os => simp [map_outputs, entry_output, h1, h2, Except.map, concat_all]
      | sub t2 =>
        rw [process_node_cons_sub, ih]
        cases h1 : safe_xpath n code with
        | error e => simp [map_outputs, entry_output, h1, Except.map]
        | ok subNodes =>
          cases h2 : process_list bar strip t2 subNodes with
          | error e => simp [map_outputs, entry_output, h1, h2, Except.map]
          | ok subOut =>
            cases h3 : map_outputs (entry_output bar strip n) rest with
            | error e => simp [map_outputs, entry_output, h1, h2, h3, Except.map]
            | ok os => simp [map_outputs, entry_output, h1, h2, h3, Except.map, concat_all]
      | scalar s =>
        rw [process_node_cons_scalar, ih]
        cases h2 : map_outputs (entry_output bar strip n) rest with
        | error e => simp [map_outputs, entry_output, h2, Except.map]
        | ok os => simp [map_outputs, entry_output, h2, Except.map, concat_all, str_empty_append]

/-! Characterisation of the lazy-regex field split. -/

theorem splitFieldAux_some : ∀ (cs p w : List Char), splitFieldAux cs = (p, some w) →
    w ≠ [] ∧ w.all wordChar = true ∧ cs = p ++ '=' :: w := by
  intro cs
  induction cs with
  | nil =>
    intro p w h
    simp [splitFieldAux] at h
  | cons c rest ih =>
    intro p w h
    unfold splitFieldAux at h
    by_cases hc : c = '=' ∧ rest ≠ [] ∧ rest.all wordChar = true
    · rw [if_pos hc] at h
      rw [Prod.mk.injEq] at h
      obtain ⟨hp, hw⟩ := h
      obtain ⟨hc1, hc2, hc3⟩ := hc
      injection hw with hw
      subst hp hw hc1
      exact ⟨hc2, hc3, rfl⟩
    · rw [if_neg hc] at h
      rcases hsp : splitFieldAux rest with ⟨p2, a2⟩
      rw [hsp] at h
      rw [Prod.mk.injEq] at h
      obtain ⟨hp, hw⟩ := h
      subst hp hw
      obtain ⟨h1, h2, h3⟩ := ih p2 w hsp
      exact ⟨h1, h2, by rw [List.cons_append, ← h3]⟩

theorem splitFieldAux_none : ∀ (cs p : List Char), splitFieldAux cs = (p, none) →
    p = cs ∧ ∀ (pre w : List Char), cs = pre ++ '=' :: w →
      w = [] ∨ w.all wordChar = false := by
  intro cs
  induction cs with
  | nil =>
    intro p h
    simp [splitFieldAux] at h
    subst h
    refine ⟨rfl, ?_⟩
    intro pre w hw
    exact absurd hw (by simp)
  | cons c rest ih =>
    intro p h
    unfold splitFieldAux at h
    by_cases hc : c = '=' ∧ rest ≠ [] ∧ rest.all wordChar = true
    · rw [if_pos hc] at h
      rw [Prod.mk.injEq] at h
      exact absurd h.2 (by simp)
    · rw [if_neg hc] at h
      rcases hsp : splitFieldAux rest with ⟨p2, a2⟩
      rw [hsp] at h
      rw [Prod.mk.injEq] at h
      obtain ⟨hp, ha⟩ := h
      subst hp ha
      obtain ⟨h1, h2⟩ := ih p2 hsp
      subst h1
      refine ⟨rfl, ?_⟩
      intro pre w hw
      cases pre with
      | nil =>
        rw [List.nil_append] at hw
        injection hw with hw1 hw2
        subst hw1
        rw [← hw2]
        by_cases hall : p2.all wordChar = true
        · by_cases hr : p2 = []
          · exact Or.inl hr
          · exact absurd ⟨rfl, hr, hall⟩ hc
        · exact Or.inr (by simpa using hall)
      | cons c2 pre2 =>
        rw [List.cons_append] at hw
        injection hw with hw1 hw2
        exact h2 pre2 w hw2

/-- C7: for every field specifier string, parsing splits it so that a
trailing `=word` (`word` a nonempty run of identifier characters) is the
attribute name and everything before it is the node-selection path; an
empty path is replaced by `.`; when no such trailing group exists the whole
specifier is the path and there is no attribute; and `.` selects the
context node itself. -/
theorem parse_field_path_spec :
    ∀ (s p : String) (a : Option String), parse_field_path s = (p, a) →
      (∀ w, a = some w →
        w.data ≠ [] ∧ w.data.all wordChar = true ∧
        ((p = "." ∧ s.data = '=' :: w.data) ∨ s.data = p.data ++ '=' :: w.data)) ∧
      (a = none →
        p = (if s = "" then "." else s) ∧
        ∀ (pre w : List Char), s.data = pre ++ '=' :: w →
          w = [] ∨ w.all wordChar = false) ∧
      (∀ node : XNode, safe_xpath node "." = Except.ok [node]) := by
  intro s p a h
  unfold parse_field_path at h
  rcases hsp : splitFieldAux s.data with ⟨p0, a0⟩
  rw [hsp] at h
  rw [Prod.mk.injEq] at h
  obtain ⟨hp, ha⟩ := h
  refine ⟨?_, ?_, fun node => rfl⟩
  · intro w hw
    subst hw
    cases a0 with
    | none => exact absurd ha (by simp)
    | some w0 =>
      have ha2 : some (String.mk w0) = some w := ha
      injection ha2 with ha
      obtain ⟨h1, h2, h3⟩ := splitFieldAux_some s.data p0 w0 hsp
      have hwdata : (String.mk w0).data = w0 := rfl
      rw [← ha, hwdata]
      refine ⟨h1, h2, ?_⟩
      by_cases hp0 : p0 = []
      · subst hp0
        rw [if_pos rfl] at hp
        exact Or.inl ⟨hp.symm, by simpa using h3⟩
      · rw [if_neg hp0] at hp
        refine Or.inr ?_
        rw [← hp]
        exact h3
  · intro ha0
    subst ha0
    cases a0 with
    | some w0 => exact absurd ha (by simp)
    | none =>
      obtain ⟨h1, h2⟩ := splitFieldAux_none s.data p0 hsp
      subst h1
      constructor
      · by_cases hs : s = ""
        · subst hs
          rw [if_pos rfl] at hp ⊢
          exact hp.symm
        · rw [if_neg hs]
          have hdat : s.data ≠ [] := by
            intro hnil
            exact hs (by cases s with | mk d => simp at hnil; rw [hnil])
          rw [if_neg hdat] at hp
          rw [← hp]
      · exact h2

theorem parse_field_path_spec_witness :
    (("name" : String).data ≠ [] ∧ ("name" : String).data.all wordChar = true ∧
      ((("item" : String) = "." ∧
          ("item=name" : String).data = '=' :: ("name" : String).data) ∨
        ("item=name" : String).data
          = ("item" : String).data ++ '=' :: ("name" : String).data)) ∧
    safe_xpath itemA "." = Except.ok [itemA] :=
  ⟨(parse_field_path_spec "item=name" "item" (some "name") rfl).1 "name" rfl,
   (parse_field_path_spec "item=name" "item" (some "name") rfl).2.2 itemA⟩

/-- C8: a field specifier resolves through its first matched node only: the
first node's attribute value when `=attr` is present (empty string when the
attribute is absent there), otherwise the first node's text content — one
scalar value regardless of how many nodes the path matched. -/
theorem first_match_resolution :
    ∀ (node m : XNode) (mrest : List XNode) (f p : String) (a : Option String),
      f ≠ "" → parse_field_path f = (p, a) →
      safe_xpath node p = Except.ok (m :: mrest) →
      resolve_field node f
        = Except.ok (match a with
            | some s => some (m.attrGet s)
            | none => m.text) ∧
      (∀ s, m.attrib.lookup s = none → m.attrGet s = "") := by
  intro node m mrest f p a hf hpa hsx
  constructor
  · cases a <;> simp [resolve_field, hf, hpa, hsx]
  · intro s hs
    simp [XNode.attrGet, hs]

theorem first_match_resolution_witness :
    resolve_field c2root "item" = Except.ok itemA.text ∧
    itemA.attrGet "missing" = "" := by
  obtain ⟨h1, h2⟩ := first_match_resolution c2root itemA [itemB] "item" "item" none
    (by decide) rfl rfl
  exact ⟨h1, h2 "missing" rfl⟩

/-- C4: the claim that namespace prefixes are stripped before re-parsing
fails on prefixed element tags: the two cleaning substitutions of
`node_processor` remove the `xmlns:ns="..."` declaration and prefixed
attribute names, but leave the `ns:` prefix of the element tag itself, so
the cleaned serialization of `<ns:item xmlns:ns="...">10</ns:item>` still
carries a prefixed tag (and its re-parse cannot match a local-name
template; with the declaration removed, lxml rejects the undefined
prefix). -/
theorem prefixed_tag_survives_cleaning :
    clean_node_str "<ns:item xmlns:ns=\"http://example.com/ns\">10</ns:item>"
      = "<ns:item >10</ns:item>" ∧
    serialized_tag
        (clean_node_str "<ns:item xmlns:ns=\"http://example.com/ns\">10</ns:item>")
      = "ns:item" ∧
    ("ns:item" : String) ≠ "item" :=
  ⟨by decide, by decide, by decide⟩

/-- C10: interpretation is deterministic and read-only: running the
state-threaded `process_node` from two instances that agree on the
delimiter and the whitespace flag (but may differ in buffered output)
yields the same output text, and a successful run returns the instance
state unchanged. -/
theorem process_node_deterministic_readonly :
    (∀ (st1 st2 : ProcessorState) (t : Template) (n : XNode),
      st1.BAR = st2.BAR → st1.STRIP_WHITESPACE = st2.STRIP_WHITESPACE →
      (process_nodeSt st1 t n).map Prod.fst = (process_nodeSt st2 t n).map Prod.fst) ∧
    (∀ (st : ProcessorState) (t : Template) (n : XNode) (out : String)
        (st2 : ProcessorState),
      process_nodeSt st t n = Except.ok (out, st2) → st2 = st) := by
  constructor
  · intro st1 st2 t n hbar hstrip
    rw [(processSt_pure (sizeOf t) t le_rfl).1 st1 n,
      (processSt_pure (sizeOf t) t le_rfl).1 st2 n, hbar, hstrip]
    cases process_node st2.BAR st2.STRIP_WHITESPACE t n <;> rfl
  · intro st t n out st2 h
    rw [(processSt_pure (sizeOf t) t le_rfl).1 st n] at h
    cases h2 : process_node st.BAR st.STRIP_WHITESPACE t n with
    | error e =>
      rw [h2] at h
      exact absurd h (by simp [Except.map])
    | ok o =>
      rw [h2] at h
      simp [Except.map] at h
      exact h.2.symm

theorem process_node_deterministic_readonly_witness :
    (process_nodeSt ⟨"|", true, []⟩ c2template c2root).map Prod.fst
      = (process_nodeSt ⟨"|", true, ["pending"]⟩ c2template c2root).map Prod.fst ∧
    (⟨"|", true, []⟩ : ProcessorState) = ⟨"|", true, []⟩ := by
  constructor
  · exact process_node_deterministic_readonly.1 ⟨"|", true, []⟩ ⟨"|", true, ["pending"]⟩
      c2template c2root rfl rfl
  · refine process_node_deterministic_readonly.2 ⟨"|", true, []⟩ c2template c2root ""
      ⟨"|", true, []⟩ ?_
    rw [(processSt_pure (sizeOf c2template) c2template le_rfl).1 ⟨"|", true, []⟩ c2root]
    rw [show (⟨"|", true, []⟩ : ProcessorState).BAR = "|" from rfl,
      show (⟨"|", true, []⟩ : ProcessorState).STRIP_WHITESPACE = true from rfl,
      process_node_c2_eval]
    rfl

end Xml2Delimiter
